import Mathlib

/-!
Verification of the numerical core of a biomechanics tutorial repository:
the explicit ODE integrators (Euler and classical RK4), the fixed-step
trajectory integration driver, the Jacobian-pseudo-inverse iterative
inverse-kinematics solver, and the single-shooting optimal-control setup.

Real-valued one-dimensional numpy arrays are modelled as functions from
Fin n into the rationals (exact arithmetic).  Where dynamic numpy shape
and broadcast behaviour is itself under scrutiny, arrays are modelled as
lists of rationals instead, and fallible numpy operations return values
in Except.  External collaborators (the rigid-body model functions, the
Moore-Penrose pseudo-inverse, the scipy optimizer) are abstracted as
function parameters.
-/

/-- A real column vector of length n, modelling a one-dimensional numpy
array of floats by exact rationals. -/
abbrev Vec (n : ℕ) : Type := Fin n → ℚ

/-- Source (6-forward_dynamics, cell 5393e554):
def euler(dt, x, dot_fun, activation): return x + dot_fun(x, activation) * dt.
Scalar-times-array broadcast is modelled by scalar multiplication. -/
def euler {n m : ℕ} (dt : ℚ) (x : Vec n) (dot_fun : Vec n → Vec m → Vec n)
    (activation : Vec m) : Vec n :=
  x + dt • dot_fun x activation

/-- Source (6-forward_dynamics, cell e3d06b80): the classical fourth-order
Runge-Kutta step with four stage derivatives k1, k2, k3, k4. -/
def rk4 {n m : ℕ} (dt : ℚ) (x : Vec n) (dot_fun : Vec n → Vec m → Vec n)
    (activation : Vec m) : Vec n :=
  let k1 := dot_fun x activation
  let k2 := dot_fun (x + (dt / 2) • k1) activation
  let k3 := dot_fun (x + (dt / 2) • k2) activation
  let k4 := dot_fun (x + dt • k3) activation
  x + (dt / 6) • (k1 + (2 : ℚ) • k2 + (2 : ℚ) • k3 + k4)

/-- Claim C3: for every time step dt, state vector x, derivative function f
and control vector u, the rk4 step evaluates the four stage derivatives
k1 = f(x, u), k2 = f(x + dt/2 k1, u), k3 = f(x + dt/2 k2, u),
k4 = f(x + dt k3, u) and returns x + dt/6 (k1 + 2 k2 + 2 k3 + k4). -/
theorem rk4_four_stage_formula {n m : ℕ} (dt : ℚ) (x : Vec n)
    (f : Vec n → Vec m → Vec n) (u : Vec m) :
    rk4 dt x f u =
      x + (dt / 6) • (f x u
        + (2 : ℚ) • f (x + (dt / 2) • f x u) u
        + (2 : ℚ) • f (x + (dt / 2) • f (x + (dt / 2) • f x u) u) u
        + f (x + dt • f (x + (dt / 2) • f (x + (dt / 2) • f x u) u) u) u) := rfl

/-- Claim C10: for every derivative function that is constant in its state
argument, the rk4 step and the euler step coincide, and both equal
x + dt.c where c is the constant derivative value. -/
theorem rk4_euler_coincide_on_const {n m : ℕ} (dt : ℚ) (x : Vec n)
    (f : Vec n → Vec m → Vec n) (u : Vec m) (c : Vec n)
    (h : ∀ y : Vec n, f y u = c) :
    rk4 dt x f u = euler dt x f u ∧ euler dt x f u = x + dt • c := by
  constructor
  · funext i
    simp only [rk4, euler, h, Pi.add_apply, Pi.smul_apply, smul_eq_mul]
    ring
  · simp [euler, h]

/-- Witness for C10 at dt = 1, x = 0, the constant derivative c = 2
(in dimension one). -/
theorem rk4_euler_coincide_on_const_witness :
    rk4 (1 : ℚ) (fun _ : Fin 1 => 0) (fun _ _ => fun _ => 2) (fun _ : Fin 1 => 0)
      = euler (1 : ℚ) (fun _ : Fin 1 => 0) (fun _ _ => fun _ => 2) (fun _ : Fin 1 => 0) ∧
    euler (1 : ℚ) (fun _ : Fin 1 => 0) (fun _ _ => fun _ => 2) (fun _ : Fin 1 => 0)
      = ((fun _ => 0 : Vec 1) + (1 : ℚ) • (fun _ => 2 : Vec 1)) :=
  rk4_euler_coincide_on_const 1 (fun _ => 0) (fun _ _ => fun _ => 2) (fun _ => 0)
    (fun _ => 2) (fun _ => rfl)

/-- One Gauss-Newton update as the spec describes it: compute the simulated
markers and the marker Jacobian at the current q, form the residual
simulated minus observed, and update q to q minus the pseudo-inverse of
the Jacobian applied to the residual. -/
def newton_ik_step {nq nm : ℕ} (fk : Vec nq → Vec nm)
    (jac : Vec nq → Matrix (Fin nm) (Fin nq) ℚ)
    (pinv : Matrix (Fin nm) (Fin nq) ℚ → Matrix (Fin nq) (Fin nm) ℚ)
    (real_markers : Vec nm) (q : Vec nq) : Vec nq :=
  q - (pinv (jac q)).mulVec (fk q - real_markers)

/-- Source (inverse-kinematics notebook, function inverse_kinematics):
a for-loop over number_of_iterations; each pass computes
simulated_markers = forward_kinematics(q), jacobianMatrix =
marker_jacobian(q), then q_advance = pinv(jacobianMatrix) @
(simulated_markers - real_markers) and q -= q_advance.  The external
pieces (forward kinematics fk, marker Jacobian jac, numpy.linalg.pinv)
are abstracted as parameters. -/
def inverse_kinematics {nq nm : ℕ} (fk : Vec nq → Vec nm)
    (jac : Vec nq → Matrix (Fin nm) (Fin nq) ℚ)
    (pinv : Matrix (Fin nm) (Fin nq) ℚ → Matrix (Fin nq) (Fin nm) ℚ)
    (real_markers : Vec nm) : Vec nq → ℕ → Vec nq
  | q_init, 0 => q_init
  | q_init, number_of_iterations + 1 =>
      inverse_kinematics fk jac pinv real_markers
        (q_init - (pinv (jac q_init)).mulVec (fk q_init - real_markers))
        number_of_iterations

/-- Claim C1: for every observed marker vector, initial guess and iteration
count N, inverse_kinematics performs exactly N Gauss-Newton updates (no
convergence tolerance, no early exit): the result is the N-th iterate of
the step q goes to q minus pinv(Jacobian(q)) applied to
(simulated(q) minus observed) starting from the initial guess. -/
theorem inverse_kinematics_eq_iterate {nq nm : ℕ} (fk : Vec nq → Vec nm)
    (jac : Vec nq → Matrix (Fin nm) (Fin nq) ℚ)
    (pinv : Matrix (Fin nm) (Fin nq) ℚ → Matrix (Fin nq) (Fin nm) ℚ)
    (real_markers : Vec nm) (q_init : Vec nq) (N : ℕ) :
    inverse_kinematics fk jac pinv real_markers q_init N =
      (newton_ik_step fk jac pinv real_markers)^[N] q_init := by
  induction N generalizing q_init with
  | zero => rfl
  | succ k ih =>
      rw [inverse_kinematics, ih, Function.iterate_succ_apply, newton_ik_step]

/-- The k-fold application of one integration step: the state sequence
x0, x1, x2, ... with x_(k+1) = g(dt, x_k, f, u), as the spec describes
the trajectory produced by the driver. -/
def step_iter {α γ : Type} (dt : ℚ) (x_dot_fun : α → γ → α) (activation : γ)
    (integration_fun : ℚ → α → (α → γ → α) → γ → α) (x0 : α) : ℕ → α
  | 0 => x0
  | k + 1 =>
      integration_fun dt (step_iter dt x_dot_fun activation integration_fun x0 k)
        x_dot_fun activation

/-- The number of iterations the driver while-loop performs when its last
sampled time currently is t: zero once t exceeds final_time, and otherwise
one more than the number of whole steps dt separating t from final_time. -/
def loop_count (final_time dt t : ℚ) : ℕ :=
  if t ≤ final_time then Nat.floor ((final_time - t) / dt) + 1 else 0

/-- Source (6-forward_dynamics, cell 5393e554), body of the while loop of
perform_integration: as long as the last sampled time t is at most
final_time, append t + dt to the time vector, append one integration step
to the state list, and continue from there.  The loop of the source only
terminates because dt is positive, so the embedding carries that fact. -/
def integration_loop {α γ : Type} (final_time dt : ℚ) (hdt : 0 < dt)
    (x_dot_fun : α → γ → α) (activation : γ)
    (integration_fun : ℚ → α → (α → γ → α) → γ → α)
    (t : ℚ) (x : α) : List ℚ × List α :=
  if _h : t ≤ final_time then
    let x2 := integration_fun dt x x_dot_fun activation
    let rest := integration_loop final_time dt hdt x_dot_fun activation
      integration_fun (t + dt) x2
    ((t + dt) :: rest.1, x2 :: rest.2)
  else
    ([], [])
termination_by Nat.floor ((final_time - t) / dt + 1)
decreasing_by
  have hdt' : dt ≠ 0 := ne_of_gt hdt
  have hz : (0 : ℚ) ≤ (final_time - t) / dt := div_nonneg (by linarith) (le_of_lt hdt)
  have h1 : (final_time - (t + dt)) / dt + 1 = (final_time - t) / dt := by
    field_simp
    ring
  rw [h1, Nat.floor_add_one hz]
  exact Nat.lt_succ_self _

/-- Source (6-forward_dynamics, cell 5393e554): perform_integration starts
with time_vector = [0] and all_x = [x_initial] and runs the while loop. -/
def perform_integration {α γ : Type} (final_time dt : ℚ) (hdt : 0 < dt)
    (x_initial : α) (x_dot_fun : α → γ → α) (activation : γ)
    (integration_fun : ℚ → α → (α → γ → α) → γ → α) : List ℚ × List α :=
  let rest := integration_loop final_time dt hdt x_dot_fun activation
    integration_fun 0 x_initial
  ((0 : ℚ) :: rest.1, x_initial :: rest.2)

lemma step_iter_shift {α γ : Type} (dt : ℚ) (f : α → γ → α) (u : γ)
    (g : ℚ → α → (α → γ → α) → γ → α) (x : α) (k : ℕ) :
    step_iter dt f u g (g dt x f u) k = step_iter dt f u g x (k + 1) := by
  induction k with
  | zero => rfl
  | succ n ih =>
      rw [step_iter, ih]
      rfl

lemma loop_count_pos {final_time dt t : ℚ} (h : t ≤ final_time) :
    1 ≤ loop_count final_time dt t := by
  rw [loop_count, if_pos h]
  omega

lemma loop_count_step {final_time dt t : ℚ} (hdt : 0 < dt)
    (h : t ≤ final_time) :
    loop_count final_time dt (t + dt) = loop_count final_time dt t - 1 := by
  rw [loop_count, loop_count, if_pos h]
  by_cases h2 : t + dt ≤ final_time
  · rw [if_pos h2]
    have hz : (0 : ℚ) ≤ (final_time - (t + dt)) / dt :=
      div_nonneg (by linarith) (le_of_lt hdt)
    have h1 : (final_time - (t + dt)) / dt + 1 = (final_time - t) / dt := by
      field_simp
      ring
    have h3 : Nat.floor ((final_time - t) / dt) =
        Nat.floor ((final_time - (t + dt)) / dt) + 1 := by
      rw [← Nat.floor_add_one hz, h1]
    omega
  · rw [if_neg h2]
    have h4 : (final_time - t) / dt < 1 := by
      rw [div_lt_one hdt]
      linarith
    have h5 : Nat.floor ((final_time - t) / dt) = 0 := Nat.floor_eq_zero.mpr h4
    omega

lemma integration_loop_eq {α γ : Type} (final_time dt : ℚ) (hdt : 0 < dt)
    (f : α → γ → α) (u : γ) (g : ℚ → α → (α → γ → α) → γ → α) :
    ∀ (n : ℕ) (t : ℚ) (x : α), loop_count final_time dt t = n →
    integration_loop final_time dt hdt f u g t x =
      ((List.range n).map (fun i : ℕ => t + ((i : ℚ) + 1) * dt),
       (List.range n).map (fun i : ℕ => step_iter dt f u g x (i + 1))) := by
  intro n
  induction n with
  | zero =>
      intro t x hn
      have ht : ¬ t ≤ final_time := by
        intro h
        have h1 := @loop_count_pos final_time dt t h
        omega
      rw [integration_loop, dif_neg ht]
      simp
  | succ k ih =>
      intro t x hn
      have ht : t ≤ final_time := by
        by_contra h
        rw [loop_count, if_neg h] at hn
        omega
      have hk : loop_count final_time dt (t + dt) = k := by
        rw [loop_count_step hdt ht, hn]
        omega
      rw [integration_loop, dif_pos ht]
      dsimp only
      rw [ih (t + dt) (g dt x f u) hk]
      rw [List.range_succ_eq_map, List.map_cons, List.map_cons, List.map_map,
        List.map_map]
      simp only [Prod.mk.injEq, List.cons.injEq]
      refine ⟨⟨by push_cast; ring, ?_⟩, ⟨rfl, ?_⟩⟩
      · apply List.map_congr_left
        intro i _
        simp only [Function.comp_apply]
        push_cast
        ring
      · apply List.map_congr_left
        intro i _
        simp only [Function.comp_apply]
        rw [step_iter_shift]

lemma range_map_succ_cons {β : Type} (h : ℕ → β) (n : ℕ) :
    (List.range (n + 1)).map h = h 0 :: (List.range n).map (fun i => h (i + 1)) := by
  rw [List.range_succ_eq_map, List.map_cons, List.map_map]
  rfl

/-- Grid characterization of the driver: with N = floor(final_time/dt) + 1
the returned times are 0, dt, ..., N dt, the returned states are the
iterated steps, every grid time below index N is at most final_time, and
the final grid time exceeds final_time. -/
lemma perform_integration_grid {α γ : Type} (final_time dt : ℚ)
    (hft : 0 < final_time) (hdt : 0 < dt) (x0 : α) (f : α → γ → α) (u : γ)
    (g : ℚ → α → (α → γ → α) → γ → α) :
    (perform_integration final_time dt hdt x0 f u g).1 =
      (List.range (Nat.floor (final_time / dt) + 2)).map
        (fun k : ℕ => (k : ℚ) * dt) ∧
    (perform_integration final_time dt hdt x0 f u g).2 =
      (List.range (Nat.floor (final_time / dt) + 2)).map
        (step_iter dt f u g x0) ∧
    (∀ k : ℕ, k < Nat.floor (final_time / dt) + 1 →
      (k : ℚ) * dt ≤ final_time) ∧
    final_time < ((Nat.floor (final_time / dt) + 1 : ℕ) : ℚ) * dt := by
  have h0 : loop_count final_time dt 0 = Nat.floor (final_time / dt) + 1 := by
    rw [loop_count, if_pos hft.le, sub_zero]
  have hloop := integration_loop_eq final_time dt hdt f u g
    (Nat.floor (final_time / dt) + 1) 0 x0 h0
  have hp : perform_integration final_time dt hdt x0 f u g =
      ((0 : ℚ) :: (integration_loop final_time dt hdt f u g 0 x0).1,
       x0 :: (integration_loop final_time dt hdt f u g 0 x0).2) := rfl
  refine ⟨?_, ?_, ?_, ?_⟩
  · rw [hp]
    dsimp only
    rw [hloop]
    have h2 : Nat.floor (final_time / dt) + 2 =
        (Nat.floor (final_time / dt) + 1) + 1 := rfl
    rw [h2, range_map_succ_cons (fun k : ℕ => (k : ℚ) * dt)
      (Nat.floor (final_time / dt) + 1)]
    refine List.cons_eq_cons.mpr ⟨by norm_num, ?_⟩
    apply List.map_congr_left
    intro i _
    push_cast
    ring
  · rw [hp]
    dsimp only
    rw [hloop]
    have h2 : Nat.floor (final_time / dt) + 2 =
        (Nat.floor (final_time / dt) + 1) + 1 := rfl
    rw [h2, range_map_succ_cons (step_iter dt f u g x0)
      (Nat.floor (final_time / dt) + 1)]
    rfl
  · intro k hk
    have hk2 : (k : ℚ) ≤ final_time / dt := by
      have hk1 : k ≤ Nat.floor (final_time / dt) := by omega
      exact le_trans (Nat.cast_le.mpr hk1)
        (Nat.floor_le (div_nonneg hft.le hdt.le))
    exact (le_div_iff₀ hdt).mp hk2
  · have h3 : final_time / dt < Nat.floor (final_time / dt) + 1 :=
      Nat.lt_floor_add_one (final_time / dt)
    have h4 := (div_lt_iff₀ hdt).mp h3
    push_cast
    push_cast at h4
    linarith

/-- Claim C2: for every final_time > 0, dt > 0, initial state, derivative
function, control and conforming step function g, perform_integration
returns the time sequence 0, dt, 2 dt, ... together with the state
sequence of iterated steps x_(k+1) = g(dt, x_k, f, u), extending while
the last sampled time is at most final_time: with
N = floor(final_time / dt) + 1, both output lists enumerate indices
0 .. N, every time before the last one is at most final_time, and the
last time N dt is the single sample past final_time. -/
theorem perform_integration_characterization {α γ : Type} (final_time dt : ℚ)
    (hft : 0 < final_time) (hdt : 0 < dt) (x0 : α) (f : α → γ → α) (u : γ)
    (g : ℚ → α → (α → γ → α) → γ → α) :
    (perform_integration final_time dt hdt x0 f u g).1 =
      (List.range (Nat.floor (final_time / dt) + 2)).map
        (fun k : ℕ => (k : ℚ) * dt) ∧
    (perform_integration final_time dt hdt x0 f u g).2 =
      (List.range (Nat.floor (final_time / dt) + 2)).map
        (step_iter dt f u g x0) ∧
    (∀ k : ℕ, k < Nat.floor (final_time / dt) + 1 →
      (k : ℚ) * dt ≤ final_time) ∧
    final_time < ((Nat.floor (final_time / dt) + 1 : ℕ) : ℚ) * dt :=
  perform_integration_grid final_time dt hft hdt x0 f u g

/-- Witness for C2 at final_time = 1, dt = 1 over scalar states with an
Euler-shaped step function: the returned time vector is 0, 1, 2. -/
theorem perform_integration_characterization_witness :
    (0 : ℚ) < 1 ∧
    (perform_integration (1 : ℚ) 1 one_pos (0 : ℚ) (fun x _ => x) (0 : ℚ)
      (fun d x fn c => x + d * fn x c)).1 = [0, 1, 2] := by
  have h := perform_integration_characterization (1 : ℚ) 1 one_pos one_pos
    (0 : ℚ) (fun x _ => x) (0 : ℚ) (fun d x fn c => x + d * fn x c)
  refine ⟨one_pos, ?_⟩
  rw [h.1]
  norm_num
  decide

/-- Claim C5: for every final_time > 0 and dt > 0, the time sequence of
perform_integration is strictly increasing, and the returned trajectory
includes the sample at or immediately after final_time: the grid time
ceil(final_time / dt) * dt is the first sample at or past final_time
(all earlier grid times are strictly below final_time), it occurs in the
returned time vector, and the state list has one entry per time sample. -/
theorem perform_integration_monotone_covers {α γ : Type} (final_time dt : ℚ)
    (hft : 0 < final_time) (hdt : 0 < dt) (x0 : α) (f : α → γ → α) (u : γ)
    (g : ℚ → α → (α → γ → α) → γ → α) :
    (perform_integration final_time dt hdt x0 f u g).1.Pairwise
      (fun a b => a < b) ∧
    ((Nat.ceil (final_time / dt) : ℚ) * dt) ∈
      (perform_integration final_time dt hdt x0 f u g).1 ∧
    final_time ≤ (Nat.ceil (final_time / dt) : ℚ) * dt ∧
    (∀ j : ℕ, j < Nat.ceil (final_time / dt) → (j : ℚ) * dt < final_time) ∧
    (perform_integration final_time dt hdt x0 f u g).2.length =
      (perform_integration final_time dt hdt x0 f u g).1.length := by
  obtain ⟨h1, h2, -, -⟩ := perform_integration_grid final_time dt hft hdt x0 f u g
  refine ⟨?_, ?_, ?_, ?_, ?_⟩
  · rw [h1]
    refine List.Pairwise.map _ ?_ (List.pairwise_lt_range _)
    intro a b hab
    exact mul_lt_mul_of_pos_right (by exact_mod_cast hab) hdt
  · rw [h1]
    have hceil : Nat.ceil (final_time / dt) <
        Nat.floor (final_time / dt) + 2 := by
      have := Nat.ceil_le_floor_add_one (final_time / dt)
      omega
    exact List.mem_map.mpr ⟨Nat.ceil (final_time / dt),
      List.mem_range.mpr hceil, rfl⟩
  · have hle : final_time / dt ≤ (Nat.ceil (final_time / dt) : ℚ) :=
      Nat.le_ceil (final_time / dt)
    exact (div_le_iff₀ hdt).mp hle
  · intro j hj
    have hjlt : (j : ℚ) < final_time / dt := Nat.lt_ceil.mp hj
    exact (lt_div_iff₀ hdt).mp hjlt
  · rw [h1, h2]
    simp

/-- Witness for C5 at final_time = 1, dt = 1 over scalar states: the time
vector contains the grid sample at or immediately after final_time. -/
theorem perform_integration_monotone_covers_witness :
    (0 : ℚ) < 1 ∧
    ((Nat.ceil ((1 : ℚ) / 1) : ℚ) * 1) ∈
      (perform_integration (1 : ℚ) 1 one_pos (0 : ℚ) (fun x _ => x) (0 : ℚ)
        (fun d x fn c => x + d * fn x c)).1 :=
  ⟨one_pos, (perform_integration_monotone_covers (1 : ℚ) 1 one_pos one_pos
    (0 : ℚ) (fun x _ => x) (0 : ℚ) (fun d x fn c => x + d * fn x c)).2.1⟩

/-- Source (6-forward_dynamics, cell fe05507e): states = x[:n_q*2], the
state part of the augmented optimization vector. -/
def slice_states {nq nm : ℕ} (x : Vec (nq + nq + nm)) : Vec (nq + nq) :=
  fun i => x (Fin.castAdd nm i)

/-- Source (6-forward_dynamics, cell fe05507e): controls = x[n_q*2:], the
control part of the augmented optimization vector. -/
def slice_controls {nq nm : ℕ} (x : Vec (nq + nq + nm)) : Vec nm :=
  fun j => x (Fin.natAdd (nq + nq) j)

/-- The joint-position rows x_integrated[:n_q] of one sampled state. -/
def q_part {nq : ℕ} (s : Vec (nq + nq)) : Vec nq :=
  fun i => s (Fin.castAdd nq i)

/-- Source (6-forward_dynamics, cell fe05507e): lagrange_cost_function
slices the candidate vector into states and controls, integrates with the
trajectory driver, and returns
numpy.sum((x_integrated[:n_q] - target_position) ** 2), the sum over all
samples and all joint coordinates of the squared deviation from the
target configuration. -/
def lagrange_cost_function {nq nm : ℕ} (final_time dt : ℚ) (hdt : 0 < dt)
    (target_position : Vec nq)
    (x_dot_fun : Vec (nq + nq) → Vec nm → Vec (nq + nq))
    (integration_method : ℚ → Vec (nq + nq) →
      (Vec (nq + nq) → Vec nm → Vec (nq + nq)) → Vec nm → Vec (nq + nq))
    (x : Vec (nq + nq + nm)) : ℚ :=
  let states := slice_states x
  let controls := slice_controls x
  let result := perform_integration final_time dt hdt states x_dot_fun
    controls integration_method
  (result.2.map (fun s => ∑ i : Fin nq, (q_part s i - target_position i) ^ 2)).sum

/-- The path cost the spec describes: the sum over every sampled state of
the squared deviation of its joint-position part from the target. -/
def total_squared_deviation {nq : ℕ} (target_position : Vec nq)
    (samples : List (Vec (nq + nq))) : ℚ :=
  (samples.map (fun s => ∑ i : Fin nq, (q_part s i - target_position i) ^ 2)).sum

/-- Claim C4: for every candidate augmented vector, the shooting cost equals
the total squared deviation of the joint-position part of every sampled
state of the trajectory obtained by running the trajectory driver from
the candidate initial state under the candidate constant control - a path
cost over all samples, not only the endpoint. -/
theorem lagrange_cost_is_path_cost {nq nm : ℕ} (final_time dt : ℚ)
    (hdt : 0 < dt) (target_position : Vec nq)
    (x_dot_fun : Vec (nq + nq) → Vec nm → Vec (nq + nq))
    (integration_method : ℚ → Vec (nq + nq) →
      (Vec (nq + nq) → Vec nm → Vec (nq + nq)) → Vec nm → Vec (nq + nq))
    (x : Vec (nq + nq + nm)) :
    lagrange_cost_function final_time dt hdt target_position x_dot_fun
      integration_method x =
      total_squared_deviation target_position
        (perform_integration final_time dt hdt (slice_states x) x_dot_fun
          (slice_controls x) integration_method).2 := rfl

/-- Witness for C4 with one degree of freedom, one control, final_time = 1,
dt = 1, the zero candidate vector and an identity-like step function. -/
theorem lagrange_cost_is_path_cost_witness :
    (0 : ℚ) < 1 ∧
    lagrange_cost_function (1 : ℚ) 1 one_pos (fun _ : Fin 1 => 0)
      (fun s _ => s) (fun _ s _ _ => s) (fun _ : Fin (1 + 1 + 1) => 0) =
      total_squared_deviation (fun _ : Fin 1 => 0)
        (perform_integration (1 : ℚ) 1 one_pos
          (slice_states (fun _ : Fin (1 + 1 + 1) => 0)) (fun s _ => s)
          (slice_controls (fun _ : Fin (1 + 1 + 1) => 0))
          (fun _ s _ _ => s)).2 :=
  ⟨one_pos, lagrange_cost_is_path_cost (1 : ℚ) 1 one_pos (fun _ => 0)
    (fun s _ => s) (fun _ s _ _ => s) (fun _ => 0)⟩

/-- Source (6-forward_dynamics, cell 5393e554), function x_dot, modelled
with dynamic numpy shapes as lists: q = x[:n_q], qdot = x[n_q:], then
xdot = numpy.array((qdot, muscular_joint_acceleration(...)))[:, 0].
Stacking the two rows qdot and the acceleration into a 2 by n_q array and
taking its column 0 yields the two-element list of the heads of the two
rows.  The external muscular_joint_acceleration is abstracted as mja. -/
def x_dot (n_q : ℕ) (mja : List ℚ → List ℚ → List ℚ → List ℚ)
    (x : List ℚ) (activation : List ℚ) : List ℚ :=
  let q := x.take n_q
  let qdot := x.drop n_q
  [qdot, mja activation q qdot].map List.headI

/-- Claim C6 (code bug): for the model dimension n_q = 2, the state
x = [0, 0, 1, 2] (velocity part [1, 2]) and an external dynamics returning
the acceleration [5, 6], x_dot returns the two-element vector [1, 5]
formed from the heads of the velocity and acceleration rows, not the
claimed length-4 concatenation [1, 2, 5, 6] of velocity and
acceleration. -/
theorem x_dot_truncates_at_two_dof :
    x_dot 2 (fun _ _ _ => [5, 6]) [0, 0, 1, 2] [] = [1, 5] ∧
    x_dot 2 (fun _ _ _ => [5, 6]) [0, 0, 1, 2] [] ≠ [1, 2, 5, 6] := by
  constructor
  · rfl
  · decide

/-- numpy elementwise subtraction of two column vectors with shape
broadcasting: equal lengths subtract pointwise, a length-1 operand is
broadcast against the other, and any other combination raises. -/
def np_sub (a b : List ℚ) : Except String (List ℚ) :=
  if a.length = b.length then Except.ok (List.zipWith (fun p q => p - q) a b)
  else if b.length = 1 then Except.ok (a.map (fun p => p - b.headI))
  else if a.length = 1 then Except.ok (b.map (fun q => a.headI - q))
  else Except.error "operands could not be broadcast together"

/-- numpy matrix @ column-vector product with the inner-dimension check. -/
def np_mat_vec (M : List (List ℚ)) (v : List ℚ) : Except String (List ℚ) :=
  if M.all (fun row => row.length = v.length) then
    Except.ok (M.map (fun row => (List.zipWith (fun p q => p * q) row v).sum))
  else Except.error "matmul: dimension mismatch"

/-- numpy in-place subtraction a -= b: a broadcasting subtraction whose
result must keep the shape of a. -/
def np_isub (a b : List ℚ) : Except String (List ℚ) :=
  (np_sub a b).bind (fun r =>
    if r.length = a.length then Except.ok r
    else Except.error "non-broadcastable output operand")

/-- One pass of the source inverse_kinematics loop body under the
dynamic-shape numpy model: the simulated markers and the pseudo-inverse
of the Jacobian are computed first (external calls fk and pinvJ), then
the residual subtraction, the matrix product giving q_advance and the
in-place update q -= q_advance, each able to raise a numpy shape error. -/
def ik_step_np (fk : List ℚ → List ℚ) (pinvJ : List ℚ → List (List ℚ))
    (real_markers q : List ℚ) : Except String (List ℚ) :=
  (np_sub (fk q) real_markers).bind (fun residual =>
    (np_mat_vec (pinvJ q) residual).bind (fun q_advance =>
      np_isub q q_advance))

/-- Source (inverse-kinematics notebook, function inverse_kinematics),
under the dynamic-shape numpy model: the body is run number_of_iterations
times; a numpy shape error aborts the call. -/
def inverse_kinematics_np (fk : List ℚ → List ℚ)
    (pinvJ : List ℚ → List (List ℚ)) (real_markers : List ℚ) :
    List ℚ → ℕ → Except String (List ℚ)
  | q, 0 => Except.ok q
  | q, n + 1 => (ik_step_np fk pinvJ real_markers q).bind
      (fun q2 => inverse_kinematics_np fk pinvJ real_markers q2 n)

/-- Claim C7 counterexample: a call on a model with one marker (simulated
marker vector of length 3) and an observed vector of length 1 - a
dimension mismatch - does not fail at all, let alone fail fast: numpy
broadcasting silently absorbs the mismatch and five full iterations run,
returning a refined q. -/
theorem inverse_kinematics_no_dimension_check :
    ([(5 : ℚ)]).length ≠ 3 * 1 ∧
    inverse_kinematics_np (fun _ => [0, 0, 0]) (fun _ => [[1, 0, 0]])
      [5] [0] 5 = Except.ok [25] := by
  constructor
  · decide
  · norm_num [inverse_kinematics_np, ik_step_np, np_sub, np_mat_vec, np_isub,
      Except.bind]

/-- Claim C7 amended: inverse_kinematics performs no dimension validation
and does not fail fast: when the observed vector length differs from the
simulated marker vector length and neither length is 1 (so numpy cannot
broadcast), the call errors only through the residual subtraction inside
the first iteration, after the forward kinematics and the Jacobian
pseudo-inverse of that iteration have already been evaluated. -/
theorem inverse_kinematics_mismatch_errors_in_first_iteration
    (fk : List ℚ → List ℚ) (pinvJ : List ℚ → List (List ℚ))
    (real_markers q0 : List ℚ) (N : ℕ) (hN : 1 ≤ N)
    (hne : (fk q0).length ≠ real_markers.length)
    (hr1 : real_markers.length ≠ 1) (hs1 : (fk q0).length ≠ 1) :
    inverse_kinematics_np fk pinvJ real_markers q0 N =
      Except.error "operands could not be broadcast together" := by
  obtain ⟨k, rfl⟩ : ∃ k, N = k + 1 := ⟨N - 1, by omega⟩
  rw [inverse_kinematics_np, ik_step_np, np_sub, if_neg hne, if_neg hr1,
    if_neg hs1]
  rfl

/-- Witness for the amended C7: one marker (three simulated coordinates)
against an observed vector of length two errors in the first iteration. -/
theorem inverse_kinematics_mismatch_errors_witness :
    ((fun _ : List ℚ => [(0 : ℚ), 0, 0]) [0]).length ≠ ([(1 : ℚ), 2]).length ∧
    inverse_kinematics_np (fun _ => [0, 0, 0]) (fun _ => [[1, 0, 0]])
      [1, 2] [0] 1 = Except.error "operands could not be broadcast together" :=
  ⟨by decide, inverse_kinematics_mismatch_errors_in_first_iteration
    (fun _ => [0, 0, 0]) (fun _ => [[1, 0, 0]]) [1, 2] [0] 1 le_rfl
    (by decide) (by decide) (by decide)⟩

/-- Pointwise subtraction of two equally shaped numpy vectors as lists. -/
def list_sub (a b : List ℚ) : List ℚ :=
  List.zipWith (fun p q => p - q) a b

/-- Matrix @ column-vector product on well-shaped list data. -/
def mat_vec (M : List (List ℚ)) (v : List ℚ) : List ℚ :=
  M.map (fun row => (List.zipWith (fun p q => p * q) row v).sum)

/-- The value computed for the buffer of q_init by one pass of the source
inverse_kinematics loop on well-shaped data:
q - pinv(J(q)) @ (forward_kinematics(q) - real_markers). -/
def ik_step_list (fk : List ℚ → List ℚ) (pinvJ : List ℚ → List (List ℚ))
    (real_markers q : List ℚ) : List ℚ :=
  list_sub q (mat_vec (pinvJ q) (list_sub (fk q) real_markers))

/-- The value held by the q_init buffer after the whole source loop:
number_of_iterations passes of the update. -/
def inverse_kinematics_list (fk : List ℚ → List ℚ)
    (pinvJ : List ℚ → List (List ℚ)) (real_markers : List ℚ) :
    List ℚ → ℕ → List ℚ
  | q, 0 => q
  | q, n + 1 => inverse_kinematics_list fk pinvJ real_markers
      (ik_step_list fk pinvJ real_markers q) n

/-- Source (inverse-kinematics notebook, function inverse_kinematics),
modelled with an explicit store of numpy buffers to capture aliasing: the
argument q_init is an address into the store; each loop pass reads the
buffer, and the in-place statement q_init -= q_advance writes the updated
value back into the same buffer; return q_init returns that address. -/
def inverse_kinematics_heap (fk : List ℚ → List ℚ)
    (pinvJ : List ℚ → List (List ℚ)) (real_markers : List ℚ)
    (q_addr : ℕ) : List (List ℚ) → ℕ → List (List ℚ) × ℕ
  | store, 0 => (store, q_addr)
  | store, n + 1 =>
      inverse_kinematics_heap fk pinvJ real_markers q_addr
        (store.set q_addr
          (ik_step_list fk pinvJ real_markers (store.getD q_addr []))) n

/-- Claim C9: for every store of numpy buffers, every valid address of the
caller's q_init buffer and every iteration count N of at least one,
inverse_kinematics returns the very address it was given (the same array
object), and after the call that buffer holds the solved q - the N-fold
updated value - rather than the original guess, while all other buffers
are untouched: the final store is exactly the input store with the q_init
buffer overwritten. -/
theorem inverse_kinematics_mutates_in_place (fk : List ℚ → List ℚ)
    (pinvJ : List ℚ → List (List ℚ)) (real_markers : List ℚ) (q_addr : ℕ) :
    ∀ (N : ℕ) (store : List (List ℚ)), 1 ≤ N → q_addr < store.length →
    inverse_kinematics_heap fk pinvJ real_markers q_addr store N =
      (store.set q_addr
        (inverse_kinematics_list fk pinvJ real_markers
          (store.getD q_addr []) N), q_addr) := by
  intro N
  induction N with
  | zero =>
      intro store h1 _
      omega
  | succ k ih =>
      intro store _ ha
      by_cases hk : k = 0
      · subst hk
        rw [inverse_kinematics_heap, inverse_kinematics_heap,
          inverse_kinematics_list, inverse_kinematics_list]
      · have h1 : 1 ≤ k := by omega
        rw [inverse_kinematics_heap]
        rw [ih _ h1 (by simpa using ha)]
        have hg : (store.set q_addr
            (ik_step_list fk pinvJ real_markers
              (store.getD q_addr []))).getD q_addr [] =
            ik_step_list fk pinvJ real_markers (store.getD q_addr []) := by
          rw [List.getD_eq_getElem?_getD, List.getElem?_set_self]
          · rfl
          · simpa using ha
        rw [hg, List.set_set, inverse_kinematics_list]

/-- Witness for C9 with a one-buffer store, trivial external functions and
a single iteration. -/
theorem inverse_kinematics_mutates_in_place_witness :
    (1 : ℕ) ≤ 1 ∧ (0 : ℕ) < ([[(0 : ℚ)]]).length ∧
    inverse_kinematics_heap (fun _ => []) (fun _ => []) [] 0 [[(0 : ℚ)]] 1 =
      (([[(0 : ℚ)]]).set 0
        (inverse_kinematics_list (fun _ => []) (fun _ => [])
          [] (([[(0 : ℚ)]]).getD 0 []) 1), 0) :=
  ⟨le_rfl, by decide, inverse_kinematics_mutates_in_place (fun _ => [])
    (fun _ => []) [] 0 1 [[(0 : ℚ)]] le_rfl (by decide)⟩

/-- Source (6-forward_dynamics, cell fe05507e): the per-variable bounds
tuple, n_q position bounds of plus/minus 2 pi, n_q velocity bounds of
plus/minus 20 pi, and one (0.001, 0.999) bound per muscle control.  The
float constant numpy.pi is modelled as a rational parameter p. -/
def shooting_bounds (p : ℚ) (n_q n_muscles : ℕ) : List (ℚ × ℚ) :=
  List.replicate n_q (-(2 * p), 2 * p) ++
    List.replicate n_q (-(20 * p), 20 * p) ++
    List.replicate n_muscles (1 / 1000, 999 / 1000)

/-- Source (6-forward_dynamics, cell fe05507e): states is the target
position followed by n_q zero velocities, controls is the hard-coded
muscle activation pair 0.1 and 0.0001, and the initial guess sent to the
optimizer is their concatenation. -/
def shooting_initial_guess (target_position : List ℚ) (n_q : ℕ) : List ℚ :=
  (target_position ++ List.replicate n_q 0) ++ [1 / 10, 1 / 10000]

/-- Source (6-forward_dynamics, cell fe05507e):
results = optimize.minimize(lagrange_cost_function, initial_guess, with
the bounds list).  The candidate guess and the bounds are handed directly
to the external optimizer, with no validation of any kind in between. -/
def shooting_optimize
    (minimize : (List ℚ → ℚ) → List ℚ → List (ℚ × ℚ) → List ℚ)
    (p : ℚ) (target_position : List ℚ) (n_q n_muscles : ℕ)
    (cost : List ℚ → ℚ) : List ℚ :=
  minimize cost (shooting_initial_guess target_position n_q)
    (shooting_bounds p n_q n_muscles)

/-- The invalid-bounds condition named by the claim, stated on a bounds
list and a guess vector: some control-variable bound (index at least
n_state, the number of state variables) strictly excludes the
corresponding component of the initial guess. -/
def control_bound_excludes_guess (bounds : List (ℚ × ℚ)) (guess : List ℚ)
    (n_state : ℕ) : Prop :=
  ∃ i : ℕ, n_state ≤ i ∧ i < bounds.length ∧ i < guess.length ∧
    (guess.getD i 0 < (bounds.getD i (0, 0)).1 ∨
      (bounds.getD i (0, 0)).2 < guess.getD i 0)

/-- Claim C8 counterexample: in the repository's own shooting invocation
(one degree of freedom, two muscles, target 1.20, numpy.pi stood in by
the rational 314159/100000), the second control component of the initial
guess, 0.0001, lies outside its declared bounds (0.001, 0.999) - invalid
bounds in the sense of the claim - yet the call does not fail fast: the
external optimizer is invoked anyway and its result returned as is. -/
theorem shooting_runs_optimizer_despite_excluded_guess :
    control_bound_excludes_guess
      (shooting_bounds (314159 / 100000) 1 2)
      (shooting_initial_guess [6 / 5] 1) 2 ∧
    shooting_optimize (fun _ _ _ => [42]) (314159 / 100000) [6 / 5] 1 2
      (fun _ => 0) = [42] := by
  constructor
  · refine ⟨3, by omega, ?_, ?_, Or.inl ?_⟩
    · simp [shooting_bounds]
    · simp [shooting_initial_guess]
    · norm_num [shooting_bounds, shooting_initial_guess, List.replicate,
        List.getD_cons_succ, List.getD_cons_zero]
  · rfl

/-- Claim C8 amended: the shooting code performs no bounds validation at
all: for every external optimizer, every cost function, every rational
stand-in for numpy.pi and every single-entry target, the optimizer is
invoked directly on the constructed initial guess and bounds - even
though that very guess has its second control component 0.0001 outside
the declared control bounds (0.001, 0.999). -/
theorem shooting_no_bounds_validation
    (minimize : (List ℚ → ℚ) → List ℚ → List (ℚ × ℚ) → List ℚ)
    (cost : List ℚ → ℚ) (p t : ℚ) :
    shooting_optimize minimize p [t] 1 2 cost =
      minimize cost (shooting_initial_guess [t] 1)
        (shooting_bounds p 1 2) ∧
    control_bound_excludes_guess (shooting_bounds p 1 2)
      (shooting_initial_guess [t] 1) 2 := by
  refine ⟨rfl, 3, by omega, ?_, ?_, Or.inl ?_⟩
  · simp [shooting_bounds]
  · simp [shooting_initial_guess]
  · norm_num [shooting_bounds, shooting_initial_guess, List.replicate,
      List.getD_cons_succ, List.getD_cons_zero]
